import Mathlib

/-!
# ShareHound — verification of spec claims against a shallow embedding

This file embeds, in Lean 4, the parts of the ShareHound Go code base that
the frozen claims C1–C10 are about:

* the rule language (`internal/rules`: parser, conditions, evaluator),
* the binary parsers for SIDs, ACEs, ACLs and security descriptors
  (`internal/smb`),
* the access-mask → edge-kind tables (`internal/smb`),
* the share-rights collector (`internal/collector/share_rights.go`),
* the graph store (`internal/graph/opengraph.go`),
* the graph-building context (`OpenGraphContext.AddPathToGraph`),
* the export entry-naming logic of `ExportToFileWithProgress`.

Strings are modelled as `List Char` (all inputs of interest are ASCII, so Go's
byte indexing coincides with character indexing); raw bytes are modelled as
`List Nat` and read with the same shift/or arithmetic as the Go code, so no
boundedness side conditions are needed.  Go `float64` rule values are modelled
as `Rat`: every numeric value reached by the claims is a small integer, exactly
representable in both.
-/

namespace ShareHound

/-- Strings as character lists (Go strings over ASCII input). -/
abbrev Str := List Char

/-- The single-quote character (ASCII 39). -/
def quoteC : Char := Char.ofNat 39

/-- The double-quote character (ASCII 34). -/
def dquoteC : Char := Char.ofNat 34

/-- ASCII upper-casing of one character (`strings.ToUpper` restricted to the
ASCII inputs that occur in this development). -/
def upChar (c : Char) : Char :=
  if 97 ≤ c.toNat ∧ c.toNat ≤ 122 then Char.ofNat (c.toNat - 32) else c

/-- ASCII lower-casing of one character. -/
def lowChar (c : Char) : Char :=
  if 65 ≤ c.toNat ∧ c.toNat ≤ 90 then Char.ofNat (c.toNat + 32) else c

/-- `strings.ToUpper` (ASCII). -/
def strToUpper (s : Str) : Str := s.map upChar

/-- `strings.ToLower` (ASCII). -/
def strToLower (s : Str) : Str := s.map lowChar

/-- Go's `unicode.IsSpace` restricted to the ASCII whitespace characters. -/
def isSpaceChar (c : Char) : Bool :=
  c = ' ' ∨ c = '\t' ∨ c = '\n' ∨ c = '\r' ∨ c.toNat = 11 ∨ c.toNat = 12

/-- `strings.TrimSpace`. -/
def strTrimSpace (s : Str) : Str :=
  ((s.dropWhile isSpaceChar).reverse.dropWhile isSpaceChar).reverse

/-- `strings.HasPrefix`. -/
def strHasPrefix (s p : Str) : Bool := p.isPrefixOf s

/-- `strings.HasSuffix`. -/
def strHasSuffix (s p : Str) : Bool := p.reverse.isPrefixOf s.reverse

/-- `strings.TrimSuffix`: drops `p` from the end of `s` when it is a suffix
(case-sensitively), otherwise returns `s` unchanged. -/
def strTrimSuffix (s p : Str) : Str :=
  if strHasSuffix s p then s.take (s.length - p.length) else s

/-- `strings.Index`, as `Option Nat` (`none` plays Go's `-1`). -/
def strIndex : Str → Str → Option Nat
  | [], sub => if sub.isEmpty then some 0 else none
  | s@(_ :: rest), sub =>
    if sub.isPrefixOf s then some 0
    else (strIndex rest sub).map (· + 1)

/-- `strings.EqualFold` (simple case folding, ASCII fragment). -/
def strEqualFold (a b : Str) : Bool := strToLower a = strToLower b

/-- Decimal rendering of a natural number, as used by `fmt.Sprintf("%d", ·)`. -/
def natToStr (n : Nat) : Str := Nat.toDigits 10 n

/-- Split at the first occurrence of character `c`
(`strings.SplitN(s, c, 2)` when `c` occurs). -/
def splitFirst (s : Str) (c : Char) : Option (Str × Str) :=
  match s with
  | [] => none
  | x :: rest =>
    if x = c then some ([], rest)
    else (splitFirst rest c).map (fun p => (x :: p.1, p.2))

/-! ## Access-mask → edge-kind tables (`internal/smb`, part_002) -/

/-- `ShareRightsMapping`, in declaration order: edge kind and single-bit
share-level access-mask flag. -/
def ShareRightsMapping : List (Str × Nat) :=
  [ ("CanDsCreateChild".data,             0x00000001)
  , ("CanDsDeleteChild".data,             0x00000002)
  , ("CanDsListContents".data,            0x00000004)
  , ("CanDsWriteExtendedProperties".data, 0x00000008)
  , ("CanDsReadProperty".data,            0x00000010)
  , ("CanDsWriteProperty".data,           0x00000020)
  , ("CanDsDeleteTree".data,              0x00000040)
  , ("CanDsListObject".data,              0x00000080)
  , ("CanDsControlAccess".data,           0x00000100)
  , ("CanDelete".data,                    0x00010000)
  , ("CanReadControl".data,               0x00020000)
  , ("CanWriteDacl".data,                 0x00040000)
  , ("CanWriteOwner".data,                0x00080000)
  , ("CanGenericAll".data,                0x10000000)
  , ("CanGenericExecute".data,            0x20000000)
  , ("CanGenericWrite".data,              0x40000000)
  , ("CanGenericRead".data,               0x80000000) ]

/-- `NTFSRightsMapping`, in declaration order. -/
def NTFSRightsMapping : List (Str × Nat) :=
  [ ("CanNTFSGenericRead".data,          0x80000000)
  , ("CanNTFSGenericWrite".data,         0x40000000)
  , ("CanNTFSGenericExecute".data,       0x20000000)
  , ("CanNTFSGenericAll".data,           0x10000000)
  , ("CanNTFSMaximumAllowed".data,       0x02000000)
  , ("CanNTFSAccessSystemSecurity".data, 0x01000000)
  , ("CanNTFSSynchronize".data,          0x00100000)
  , ("CanNTFSWriteOwner".data,           0x00080000)
  , ("CanNTFSWriteDacl".data,            0x00040000)
  , ("CanNTFSReadControl".data,          0x00020000)
  , ("CanNTFSDelete".data,               0x00010000) ]

/-- The loop body of `GetShareRightsForMask` / `GetNTFSRightsForMask`, made
explicit in the order the Go `range` statement happens to deliver the map
entries: collect every kind whose flag intersects the mask.  Go's map
iteration order is unspecified, so theorems about these functions quantify
over admissible orders (permutations of the table). -/
def rightsForMaskOrd (table : List (Str × Nat)) (mask : Nat) : List Str :=
  (table.filter (fun p => mask &&& p.2 != 0)).map (·.1)

/-- `GetShareRightsForMask`, with the table in declaration order. -/
def GetShareRightsForMask (mask : Nat) : List Str :=
  rightsForMaskOrd ShareRightsMapping mask

/-- `GetNTFSRightsForMask`, with the table in declaration order. -/
def GetNTFSRightsForMask (mask : Nat) : List Str :=
  rightsForMaskOrd NTFSRightsMapping mask

/-- Union of the share-level flags (the `known_flags` of the spec). -/
def shareKnownFlags : Nat := (ShareRightsMapping.map (·.2)).foldr (· ||| ·) 0

/-- Union of the NTFS-level flags. -/
def ntfsKnownFlags : Nat := (NTFSRightsMapping.map (·.2)).foldr (· ||| ·) 0

/-- Bit-counting worker, structurally recursive on a fuel argument so that it
reduces inside the kernel.  `fuel ≥ n` makes the fuel irrelevant. -/
def popcountGo : Nat → Nat → Nat
  | 0, _ => 0
  | _ + 1, 0 => 0
  | fuel + 1, n + 1 => popcountGo fuel ((n + 1) / 2) + (n + 1) % 2

/-- Number of set bits of a natural number. -/
def popcount (n : Nat) : Nat := popcountGo n n

theorem popcountGo_congr : ∀ (f₁ f₂ n : Nat), n ≤ f₁ → n ≤ f₂ →
    popcountGo f₁ n = popcountGo f₂ n := by
  intro f₁
  induction f₁ with
  | zero =>
    intro f₂ n h₁ _
    interval_cases n
    cases f₂ <;> rfl
  | succ f ih =>
    intro f₂ n h₁ h₂
    match n, f₂ with
    | 0, 0 => rfl
    | 0, _ + 1 => rfl
    | m + 1, f₂' + 1 =>
      show popcountGo f ((m + 1) / 2) + (m + 1) % 2
         = popcountGo f₂' ((m + 1) / 2) + (m + 1) % 2
      have hd : (m + 1) / 2 ≤ f := by omega
      have hd' : (m + 1) / 2 ≤ f₂' := by omega
      rw [ih f₂' ((m + 1) / 2) hd hd']

theorem popcount_rec (n : Nat) (h : n ≠ 0) :
    popcount n = popcount (n / 2) + n % 2 := by
  obtain ⟨m, rfl⟩ : ∃ m, n = m + 1 := ⟨n - 1, by omega⟩
  show popcountGo m ((m + 1) / 2) + (m + 1) % 2 = _
  rw [popcountGo_congr m ((m + 1) / 2) ((m + 1) / 2) (by omega) (le_refl _)]
  rfl

example : popcount 0x1F01FF = 14 := by decide
example : popcount (0x1F01FF &&& shareKnownFlags) = 13 := by decide
example : shareKnownFlags = 0xF00F01FF := by decide
example : ntfsKnownFlags = 0xF31F0000 := by decide

theorem popcount_eq_countP_range :
    ∀ (k n : Nat), n < 2 ^ k →
      popcount n = (List.range k).countP (fun i => n.testBit i) := by
  intro k
  induction k with
  | zero =>
    intro n h
    interval_cases n
    rfl
  | succ k ih =>
    intro n h
    by_cases hn : n = 0
    · subst hn
      simp [popcount, popcountGo, Nat.zero_testBit]
    · rw [popcount_rec n hn, List.range_succ_eq_map, List.countP_cons,
        List.countP_map]
      have hhalf : n / 2 < 2 ^ k := by
        have := Nat.pow_succ 2 k
        omega
      rw [ih (n / 2) hhalf]
      have hcongr : (List.range k).countP ((fun i => n.testBit i) ∘ Nat.succ)
          = (List.range k).countP (fun i => (n / 2).testBit i) :=
        List.countP_congr (fun a _ => by simp [Nat.testBit_succ])
      rw [hcongr, Nat.testBit_zero]
      rcases Nat.mod_two_eq_zero_or_one n with h2 | h2 <;> simp [h2]

/-- The flag column of a distinct-single-bit mask table, together with the
union `K` of its flags, counts exactly the set bits of `mask &&& K`:
one edge kind is collected per recognised bit. -/
theorem rightsForMaskOrd_length (table : List (Str × Nat)) (idx : List Nat)
    (K mask : Nat)
    (hmap : table.map (·.2) = idx.map (2 ^ ·))
    (hperm : ((List.range 32).filter (fun i => K.testBit i)).Perm idx)
    (hKlt : K < 2 ^ 32) :
    (rightsForMaskOrd table mask).length = popcount (mask &&& K) := by
  have hand : mask &&& K < 2 ^ 32 :=
    Nat.lt_of_le_of_lt Nat.and_le_right hKlt
  rw [rightsForMaskOrd, List.length_map, ← List.countP_eq_length_filter,
    popcount_eq_countP_range 32 (mask &&& K) hand]
  have h1 : (List.range 32).countP (fun i => (mask &&& K).testBit i)
      = (List.range 32).countP (fun i => mask.testBit i && K.testBit i) :=
    List.countP_congr (fun a _ => by rw [Nat.testBit_and])
  rw [h1, ← List.countP_filter, hperm.countP_eq]
  calc table.countP (fun p => mask &&& p.2 != 0)
      = (table.map (·.2)).countP (fun f => mask &&& f != 0) := by
        rw [List.countP_map]
        exact List.countP_congr (fun a _ => Iff.rfl)
    _ = (idx.map (2 ^ ·)).countP (fun f => mask &&& f != 0) := by rw [hmap]
    _ = idx.countP (fun i => mask &&& 2 ^ i != 0) := by
        rw [List.countP_map]
        exact List.countP_congr (fun a _ => Iff.rfl)
    _ = idx.countP (fun i => mask.testBit i) :=
        List.countP_congr (fun i _ => by
          have hkey : (mask &&& 2 ^ i != 0) = mask.testBit i := by
            rcases hbit : mask.testBit i with hf | ht
            · have hz : mask &&& 2 ^ i = 0 := by
                rw [Nat.and_two_pow, hbit]
                simp
              simp [hz]
            · have hne : (2:Nat) ^ i ≠ 0 := by positivity
              have hz : mask &&& 2 ^ i = 2 ^ i := by
                rw [Nat.and_two_pow, hbit]
                simp
              simp [hz, hne]
          rw [hkey])

/-- Indices of the 17 share-level flags. -/
def shareFlagIdx : List Nat := [0, 1, 2, 3, 4, 5, 6, 7, 8, 16, 17, 18, 19, 28, 29, 30, 31]

/-- Indices of the 11 NTFS-level flags, in table declaration order. -/
def ntfsFlagIdx : List Nat := [31, 30, 29, 28, 25, 24, 20, 19, 18, 17, 16]

theorem shareRights_length_eq_popcount (mask : Nat) :
    (GetShareRightsForMask mask).length = popcount (mask &&& shareKnownFlags) :=
  rightsForMaskOrd_length ShareRightsMapping shareFlagIdx shareKnownFlags mask
    (by decide) (by decide) (by decide)

theorem ntfsRights_length_eq_popcount (mask : Nat) :
    (GetNTFSRightsForMask mask).length = popcount (mask &&& ntfsKnownFlags) :=
  rightsForMaskOrd_length NTFSRightsMapping ntfsFlagIdx ntfsKnownFlags mask
    (by decide) (by decide) (by decide)

/-! ## Binary parsers (`internal/smb`, part_003 and part_004)

Raw bytes are `List Nat`; out-of-range reads return 0 via `getD`, but every
read performed by the parsers below is guarded by the same length checks as
the Go code, so the default is never observable. -/

/-- Byte access `data[i]`. -/
def byteAt (data : List Nat) (i : Nat) : Nat := data.getD i 0

/-- `binary.LittleEndian.Uint16(data[off:off+2])`. -/
def readLE16 (data : List Nat) (off : Nat) : Nat :=
  byteAt data off ||| (byteAt data (off + 1) <<< 8)

/-- `binary.LittleEndian.Uint32(data[off:off+4])`. -/
def readLE32 (data : List Nat) (off : Nat) : Nat :=
  byteAt data off ||| (byteAt data (off + 1) <<< 8) |||
  (byteAt data (off + 2) <<< 16) ||| (byteAt data (off + 3) <<< 24)

/-- `SID` (part_004): revision, sub-authority count, 6-byte identifier
authority, and the sub-authorities. -/
structure SIDRec where
  revision : Nat
  subAuthorityCount : Nat
  identifierAuthority : List Nat
  subAuthorities : List Nat
deriving DecidableEq, Repr

/-- `ParseSID` (part_004): needs 8 header bytes plus 4 bytes per declared
sub-authority; errors are `none`. -/
def parseSID (data : List Nat) : Option SIDRec :=
  if data.length < 8 then none
  else if data.length < 8 + byteAt data 1 * 4 then none
  else some
    { revision := byteAt data 0
      subAuthorityCount := byteAt data 1
      identifierAuthority := (data.drop 2).take 6
      subAuthorities := (List.range (byteAt data 1)).map (fun i => readLE32 data (8 + i * 4)) }

/-- `SID.String()` (part_004): `S-<rev>-<auth>-<sa1>-…` with the authority
assembled big-endian (`identAuth = identAuth<<8 | b`). -/
def sidToString (s : SIDRec) : Str :=
  let identAuth := s.identifierAuthority.foldl (fun acc b => (acc <<< 8) ||| b) 0
  "S-".data ++ natToStr s.revision ++ "-".data ++ natToStr identAuth ++
    s.subAuthorities.foldl (fun acc sa => acc ++ "-".data ++ natToStr sa) []

example : (parseSID [1, 1, 0, 0, 0, 0, 0, 1, 0, 0, 0, 0]).map sidToString
    = some "S-1-1-0".data := by decide

/-- `ACE` (part_003). -/
structure ACERec where
  aceType : Nat
  aceFlags : Nat
  aceSize : Nat
  mask : Nat
  sid : Option SIDRec
deriving DecidableEq, Repr

/-- `ACE.IsAccessAllowed` (`ACCESS_ALLOWED_ACE_TYPE = 0x00`). -/
def ACERec.isAccessAllowed (a : ACERec) : Bool := a.aceType == 0

/-- `ParseACE` (part_003): returns the ACE together with its declared
on-the-wire size.  Types 0–3 carry a mask at offset 4 and a SID at offset 8
(the SID is kept only when its own parse succeeds); other types keep
`mask = 0` and no SID. -/
def parseACE (data : List Nat) : Option (ACERec × Nat) :=
  if data.length < 4 then none
  else
    let aceType := byteAt data 0
    let aceFlags := byteAt data 1
    let aceSize := readLE16 data 2
    if data.length < aceSize then none
    else if aceType = 0 ∨ aceType = 1 ∨ aceType = 2 ∨ aceType = 3 then
      if data.length < 8 then none
      else some
        ({ aceType := aceType, aceFlags := aceFlags, aceSize := aceSize
           mask := readLE32 data 4
           sid := if data.length > 8 then parseSID (data.drop 8) else none },
         aceSize)
    else some
      ({ aceType := aceType, aceFlags := aceFlags, aceSize := aceSize
         mask := 0, sid := none }, aceSize)

/-- `ACL` (part_003). -/
structure ACLRec where
  aclRevision : Nat
  sbz1 : Nat
  aclSize : Nat
  aceCount : Nat
  sbz2 : Nat
  aces : List ACERec
deriving DecidableEq, Repr

/-- The ACE loop of `ParseACL`: up to `count` iterations, stopping at the end
of the buffer or on the first `ParseACE` failure; the offset advances by the
ACE's declared size (which may be 0). -/
def parseACEsLoop (data : List Nat) : Nat → Nat → List ACERec
  | 0, _ => []
  | n + 1, offset =>
    if offset < data.length then
      match parseACE (data.drop offset) with
      | none => []
      | some (ace, size) => ace :: parseACEsLoop data n (offset + size)
    else []

/-- `ParseACL` (part_003): an 8-byte header followed by the best-effort ACE
loop starting at offset 8. -/
def parseACL (data : List Nat) : Option ACLRec :=
  if data.length < 8 then none
  else some
    { aclRevision := byteAt data 0
      sbz1 := byteAt data 1
      aclSize := readLE16 data 2
      aceCount := readLE16 data 4
      sbz2 := readLE16 data 6
      aces := parseACEsLoop data (readLE16 data 4) 8 }

/-- `SecurityDescriptor` (part_003). -/
structure SDRec where
  revision : Nat
  sbz1 : Nat
  control : Nat
  ownerSID : Option SIDRec
  groupSID : Option SIDRec
  sacl : Option ACLRec
  dacl : Option ACLRec
deriving DecidableEq, Repr

/-- `ParseSecurityDescriptor` (part_003): 20-byte header; each component is
parsed only when its offset is non-zero and in bounds, ACLs additionally only
when the corresponding `*_PRESENT` control bit (SACL `0x10`, DACL `0x04`) is
set; component parse failures leave the field empty. -/
def parseSecurityDescriptor (data : List Nat) : Option SDRec :=
  if data.length < 20 then none
  else
    let control := readLE16 data 2
    let offOwner := readLE32 data 4
    let offGroup := readLE32 data 8
    let offSacl := readLE32 data 12
    let offDacl := readLE32 data 16
    some
      { revision := byteAt data 0
        sbz1 := byteAt data 1
        control := control
        ownerSID :=
          if 0 < offOwner ∧ offOwner < data.length
          then parseSID (data.drop offOwner) else none
        groupSID :=
          if 0 < offGroup ∧ offGroup < data.length
          then parseSID (data.drop offGroup) else none
        sacl :=
          if 0 < offSacl ∧ control &&& 0x10 ≠ 0 ∧ offSacl < data.length
          then parseACL (data.drop offSacl) else none
        dacl :=
          if 0 < offDacl ∧ control &&& 0x04 ≠ 0 ∧ offDacl < data.length
          then parseACL (data.drop offDacl) else none }

/-! ## Share-rights collector (`internal/collector/share_rights.go`) -/

/-- `rights[sid] = append(rights[sid], kinds...)` on an association list. -/
def addRights (m : List (Str × List Str)) (sid : Str) (ks : List Str) :
    List (Str × List Str) :=
  match m with
  | [] => [(sid, ks)]
  | (s, v) :: rest =>
    if s = sid then (s, v ++ ks) :: rest else (s, v) :: addRights rest sid ks

/-- The kinds one ACE appends inside the `CollectShareRights` loop, with the
mask table delivered in iteration order `order`: non-allowed types, missing
SIDs and empty SID texts contribute nothing. -/
def shareAceKinds (order : List (Str × Nat)) (ace : ACERec) : List Str :=
  if !ace.isAccessAllowed then []
  else
    match ace.sid with
    | none => []
    | some s =>
      if sidToString s = [] then []
      else
        let edgeKinds := rightsForMaskOrd order ace.mask
        if edgeKinds.length > 0 then edgeKinds else []

/-- The ACE loop of `CollectShareRights` (declaration-order table). -/
def collectShareRightsLoop (aces : List ACERec) : List (Str × List Str) :=
  aces.foldl
    (fun rights ace =>
      if !ace.isAccessAllowed then rights
      else
        match ace.sid with
        | none => rights
        | some s =>
          let sid := sidToString s
          if sid = [] then rights
          else
            let edgeKinds := GetShareRightsForMask ace.mask
            if edgeKinds.length > 0 then addRights rights sid edgeKinds
            else rights)
    []

/-- `CollectShareRights` (share_rights.go): the network operations
`GetShareSecurityDescriptor` (RPC) and `GetShareRootSecurityDescriptor`
(NTFS fallback) are supplied as parameters, `none` standing for a Go error.
An error or empty RPC result falls back to the root descriptor; if that too
fails, and on descriptor-parse failure or missing DACL, the empty rights map
is returned (the source returns the empty map together with the error). -/
def collectShareRights (rpc root : Option (List Nat)) : List (Str × List Str) :=
  let rootOr : Option (List Nat) :=
    match root with
    | none => none
    | some b => if b.length = 0 then none else some b
  let sdBytes? : Option (List Nat) :=
    match rpc with
    | none => rootOr
    | some b => if b.length = 0 then rootOr else some b
  match sdBytes? with
  | none => []
  | some bytes =>
    match parseSecurityDescriptor bytes with
    | none => []
    | some sd =>
      match sd.dacl with
      | none => []
      | some dacl => collectShareRightsLoop dacl.aces

/-- `SID.String()` never yields the empty string: it always starts with `S`. -/
theorem sidToString_ne_nil (s : SIDRec) : sidToString s ≠ [] := by
  simp [sidToString, natToStr]

/-! ## Rule language (`internal/rules`: rule.go, parser.go, part_000)

The Go `interface{}` values flowing through the rule engine are modelled by
`RVal`; `int`/`int64` become `.int` and `float64` becomes `.num : Rat`
(every numeric value reached by the claims is a small integer, exactly
representable in both `float64` and `Rat`).  The Go regexp engine behind
`MATCHES` is out of scope and is modelled as an uninterpreted total function
parameter `oracle`, threaded through evaluation. -/

/-- A dynamic rule value (`interface{}`). -/
inductive RVal where
  | str (s : Str)
  | int (n : Int)
  | num (q : Rat)
  | bool (b : Bool)
  | list (vs : List RVal)
  | missing
deriving Repr

/-- A condition tree (`Condition` and its implementations). -/
inductive Cond where
  | alwaysTrue
  | field (fld : Str) (comparator : Str) (value : RVal)
  | not (inner : Cond)
  | and (conds : List Cond)
  | or (conds : List Cond)
deriving Repr

/-- `RuleAction`. -/
inductive RAction | allow | deny
deriving DecidableEq, Repr

/-- `RuleScope` (`ScopeAll` is the empty string). -/
inductive RScope | exploration | processing | all
deriving DecidableEq, Repr

/-- `Rule` (rule.go).  Go's zero values stand in for the fields a given rule
kind leaves unset; a `nil` Condition (never produced by the parser) evaluates
as true in `evaluate`, which `alwaysTrue` reproduces. -/
structure Rule where
  isDefault : Bool := false
  defaultBehavior : RAction := .allow
  action : RAction := .allow
  scope : RScope := .all
  condition : Cond := .alwaysTrue
deriving Repr

/-- `RuleObjectShare`. -/
structure RuleObjectShare where
  name : Str := []
  description : Str := []
  hidden : Bool := false

/-- `RuleObjectFile` (timestamps omitted: no rule field reads them). -/
structure RuleObjectFile where
  name : Str := []
  path : Str := []
  size : Int := 0
  extension : Str := []

/-- `RuleObjectDirectory`. -/
structure RuleObjectDirectory where
  name : Str := []
  path : Str := []

/-- `EvaluationContext` (part_000). -/
structure EvalCtx where
  share : Option RuleObjectShare := none
  file : Option RuleObjectFile := none
  directory : Option RuleObjectDirectory := none
  depth : Int := 0

/-- `EvaluationContext.GetFieldValue` (part_000): unknown fields, and known
fields whose carrier object is absent, yield Go `nil` (`.missing`). -/
def getFieldValue (ctx : EvalCtx) (fld : Str) : RVal :=
  let f := strToUpper fld
  if f = "DEPTH".data then .int ctx.depth
  else if f = "SHARE.NAME".data then
    match ctx.share with | some s => .str s.name | none => .missing
  else if f = "SHARE.DESCRIPTION".data then
    match ctx.share with | some s => .str s.description | none => .missing
  else if f = "SHARE.HIDDEN".data then
    match ctx.share with | some s => .bool s.hidden | none => .missing
  else if f = "FILE.NAME".data then
    match ctx.file with | some x => .str x.name | none => .missing
  else if f = "FILE.PATH".data then
    match ctx.file with | some x => .str x.path | none => .missing
  else if f = "FILE.SIZE".data then
    match ctx.file with | some x => .int x.size | none => .missing
  else if f = "FILE.EXTENSION".data then
    match ctx.file with | some x => .str x.extension | none => .missing
  else if f = "DIR.NAME".data ∨ f = "DIRECTORY.NAME".data then
    match ctx.directory with | some d => .str d.name | none => .missing
  else if f = "DIR.PATH".data ∨ f = "DIRECTORY.PATH".data then
    match ctx.directory with | some d => .str d.path | none => .missing
  else .missing

/-- Go `int(float64)` truncation toward zero. -/
def goTrunc (q : Rat) : Int := if 0 ≤ q then q.floor else q.ceil

/-- Go `string(rune(n))`: valid Unicode scalar values encode themselves,
everything else (negative, surrogate, out of range) encodes U+FFFD. -/
def goRuneStr (n : Int) : Str :=
  if 0 ≤ n ∧ (n < 0xD800 ∨ (0xDFFF < n ∧ n ≤ 0x10FFFF))
  then [Char.ofNat n.toNat] else [Char.ofNat 0xFFFD]

/-- `toString` (rule.go): note that numbers go through `string(rune(…))`,
and lists and `nil` become the empty string. -/
def goToString : RVal → Str
  | .str s => s
  | .int n => goRuneStr n
  | .num q => goRuneStr (goTrunc q)
  | .bool b => if b then "true".data else "false".data
  | .list _ => []
  | .missing => []

/-- `toNumber` (rule.go).  The string case is a faithful translation of
`strings.NewReader(val).Read([]byte{})`: reading zero bytes returns `io.EOF`
only when the string is empty, and otherwise succeeds without writing to
`num`, so every non-empty string "coerces" to 0. -/
def goToNumber : RVal → Option Rat
  | .int n => some (n : Rat)
  | .num q => some q
  | .str s => if s.isEmpty then none else some 0
  | _ => none

/-- `compareEqual`: both sides through `toString`, then `strings.EqualFold`. -/
def compareEqual (a b : RVal) : Bool :=
  strEqualFold (goToString a) (goToString b)

/-- `compareLess`. -/
def compareLess (a b : RVal) : Bool :=
  match goToNumber a, goToNumber b with
  | some x, some y => x < y
  | _, _ => false

/-- `compareGreater`. -/
def compareGreater (a b : RVal) : Bool :=
  match goToNumber a, goToNumber b with
  | some x, some y => y < x
  | _, _ => false

/-- `compareIn`: the right side must be a list (the `[]string` fallback in the
source is unreachable from the parser, whose lists are `[]interface{}`). -/
def compareIn (v l : RVal) : Bool :=
  match l with
  | .list items => items.any (fun item => compareEqual v item)
  | _ => false

/-- `FieldCondition.Evaluate` (rule.go): dispatch on the comparator string;
unknown comparators are false.  `MATCHES` delegates to the regexp oracle. -/
def fieldCondEval (oracle : Str → Str → Bool) (ctx : EvalCtx)
    (fld cmp : Str) (v : RVal) : Bool :=
  let fieldValue := getFieldValue ctx fld
  if cmp = "=".data ∨ cmp = "==".data then compareEqual fieldValue v
  else if cmp = "!=".data then !compareEqual fieldValue v
  else if cmp = "<".data then compareLess fieldValue v
  else if cmp = ">".data then compareGreater fieldValue v
  else if cmp = "<=".data then compareLess fieldValue v || compareEqual fieldValue v
  else if cmp = ">=".data then compareGreater fieldValue v || compareEqual fieldValue v
  else if cmp = "IN".data then compareIn fieldValue v
  else if cmp = "NOT IN".data then !compareIn fieldValue v
  else if cmp = "MATCHES".data then oracle (goToString fieldValue) (goToString v)
  else false

/-- `Condition.Evaluate` for the whole tree.  The Go recursion is structural
on the condition; here a fuel argument makes it structurally recursive in
Lean — any fuel larger than the nesting depth gives the Go semantics, and all
uses below supply ample fuel.  `and`/`or` short-circuit exactly like the Go
loops. -/
def Cond.eval (oracle : Str → Str → Bool) (ctx : EvalCtx) :
    Nat → Cond → Bool
  | 0, _ => false
  | fuel + 1, c =>
    match c with
    | .alwaysTrue => true
    | .field f cmp v => fieldCondEval oracle ctx f cmp v
    | .not inner => !(Cond.eval oracle ctx fuel inner)
    | .and cs => cs.all (fun x => Cond.eval oracle ctx fuel x)
    | .or cs => cs.any (fun x => Cond.eval oracle ctx fuel x)

/-- The rule scan of `Evaluator.evaluate` (part_000): skip default rules and
scope mismatches; the first rule whose condition holds decides. -/
def evalRuleScan (oracle : Str → Str → Bool) (ctx : EvalCtx) (fuel : Nat)
    (scope : RScope) (defaultAllow : Bool) : List Rule → Bool
  | [] => defaultAllow
  | r :: rest =>
    if r.isDefault then evalRuleScan oracle ctx fuel scope defaultAllow rest
    else if r.scope ≠ .all ∧ r.scope ≠ scope then
      evalRuleScan oracle ctx fuel scope defaultAllow rest
    else if r.condition.eval oracle ctx fuel then r.action = .allow
    else evalRuleScan oracle ctx fuel scope defaultAllow rest

/-- `Evaluator.evaluate` (part_000): the first `DEFAULT` rule fixes the
default (`ALLOW` when absent), then the ordered scan decides. -/
def evaluateRules (oracle : Str → Str → Bool) (fuel : Nat) (rules : List Rule)
    (scope : RScope) (ctx : EvalCtx) : Bool :=
  let defaultAllow :=
    match rules.find? (·.isDefault) with
    | some r => r.defaultBehavior = .allow
    | none => true
  evalRuleScan oracle ctx fuel scope defaultAllow rules

/-! ## Rule parser (`internal/rules/parser.go`) -/

/-- The loop of `splitListItems`: split on commas outside quotes, writing
quote characters through and toggling the in-quote state. -/
def splitListItemsGo : Str → Str → List Str → Bool → Char → List Str
  | [], cur, parts, _, _ => parts ++ [cur.reverse]
  | c :: rest, cur, parts, inQuote, qc =>
    if c = quoteC ∨ c = dquoteC then
      if !inQuote then splitListItemsGo rest (c :: cur) parts true c
      else if c = qc then splitListItemsGo rest (c :: cur) parts false qc
      else splitListItemsGo rest (c :: cur) parts inQuote qc
    else if c = ',' ∧ !inQuote then
      splitListItemsGo rest [] (parts ++ [cur.reverse]) inQuote qc
    else splitListItemsGo rest (c :: cur) parts inQuote qc

/-- `splitListItems` (parser.go). -/
def splitListItems (input : Str) : List Str :=
  splitListItemsGo input [] [] false (Char.ofNat 0)

/-- The loop of `splitAtKeyword`: quote and bracket handling first (these
characters never start a keyword match), then the keyword test at depth 0
outside quotes, comparing upper-cased slices.  The fuel argument only makes
the recursion structural; one character (or one keyword) is consumed per
step, so `input.length + 1` fuel is always enough. -/
def splitAtKeywordGo (keyword : Str) :
    Nat → Str → Str → List Str → Int → Bool → Char → List Str
  | 0, s, cur, parts, _, _, _ => parts ++ [(cur.reverse ++ s)]
  | _ + 1, [], cur, parts, _, _, _ => parts ++ [cur.reverse]
  | fuel + 1, s@(c :: rest), cur, parts, depth, inQuote, qc =>
    if c = quoteC ∨ c = dquoteC then
      if !inQuote then
        splitAtKeywordGo keyword fuel rest (c :: cur) parts depth true c
      else if c = qc then
        splitAtKeywordGo keyword fuel rest (c :: cur) parts depth false qc
      else splitAtKeywordGo keyword fuel rest (c :: cur) parts depth inQuote qc
    else if c = '(' ∨ c = '[' then
      splitAtKeywordGo keyword fuel rest (c :: cur) parts (depth + 1) inQuote qc
    else if c = ')' ∨ c = ']' then
      splitAtKeywordGo keyword fuel rest (c :: cur) parts (depth - 1) inQuote qc
    else if !inQuote ∧ depth = 0 ∧ keyword.length ≤ s.length ∧
        strToUpper (s.take keyword.length) = strToUpper keyword then
      splitAtKeywordGo keyword fuel (s.drop keyword.length) []
        (parts ++ [cur.reverse]) depth inQuote qc
    else splitAtKeywordGo keyword fuel rest (c :: cur) parts depth inQuote qc

/-- `splitAtKeyword` (parser.go). -/
def splitAtKeyword (input keyword : Str) : List Str :=
  splitAtKeywordGo keyword (input.length + 1) input [] [] 0 false (Char.ofNat 0)

/-- ASCII digit test. -/
def isDigitChar (c : Char) : Bool := 48 ≤ c.toNat ∧ c.toNat ≤ 57

/-- The number-literal test `^-?\d+(\.\d+)?$` of `parseValue`. -/
def numLitMatch (s : Str) : Bool :=
  let t := if strHasPrefix s "-".data then s.drop 1 else s
  let ds := t.takeWhile isDigitChar
  let rest := t.dropWhile isDigitChar
  !ds.isEmpty &&
    (rest.isEmpty ||
      (rest.headD (Char.ofNat 0) = '.' ∧ !(rest.drop 1).isEmpty ∧
        (rest.drop 1).all isDigitChar))

/-- Decimal digits to a natural number. -/
def digitsToNat (ds : Str) : Nat := ds.foldl (fun a c => a * 10 + (c.toNat - 48)) 0

/-- The `fmt.Sscanf(input, "%f", &num)` step of `parseValue`, on inputs
accepted by `numLitMatch`.  Decimal literals are read exactly into `Rat`;
the claims only exercise integers, where `float64` and `Rat` agree. -/
def parseNumLit (s : Str) : Rat :=
  let neg := strHasPrefix s "-".data
  let t := if neg then s.drop 1 else s
  let ip := t.takeWhile isDigitChar
  let rest := t.dropWhile isDigitChar
  let fp := rest.drop 1
  let q : Rat := (digitsToNat ip : Rat) + (digitsToNat fp : Rat) / ((10 : Rat) ^ fp.length)
  if neg then -q else q

/-- `parseValue` (parser.go): list, quoted string, boolean, number, bare
string — in that order.  (On the 1-character inputs `'` and `"` the Go code
slices out of range and panics; they are unreachable from the claims.)  The
fuel bounds list nesting and any `input.length` exceeds it. -/
def parseValueGo : Nat → Str → Option RVal
  | 0, _ => none
  | fuel + 1, input0 =>
    let input := strTrimSpace input0
    if strHasPrefix input "[".data ∧ strHasSuffix input "]".data then
      let inner := (input.drop 1).dropLast
      let parts := splitListItems inner
      (parts.mapM (fun p => parseValueGo fuel (strTrimSpace p))).map .list
    else if (strHasPrefix input [quoteC] ∧ strHasSuffix input [quoteC]) ∨
        (strHasPrefix input [dquoteC] ∧ strHasSuffix input [dquoteC]) then
      some (.str ((input.drop 1).dropLast))
    else
      let upper := strToUpper input
      if upper = "TRUE".data then some (.bool true)
      else if upper = "FALSE".data then some (.bool false)
      else if numLitMatch input then some (.num (parseNumLit input))
      else some (.str input)

/-- The comparator table of `parseComparison`, in scan order. -/
def comparators : List Str :=
  [ "NOT IN".data, "IN".data, "MATCHES".data, "!=".data, "<=".data,
    ">=".data, "=".data, "<".data, ">".data ]

/-- The comparator scan of `parseComparison`: prefer `" comp "`; otherwise a
bare occurrence is accepted unless it has a non-space character immediately
before it (Go only checks the preceding character when the index is
positive). -/
def findComparator (input : Str) : List Str → Option (Nat × Str)
  | [] => none
  | comp :: rest =>
    let upper := strToUpper input
    match strIndex upper (' ' :: (comp ++ [' '])) with
    | some i => some (i, comp)
    | none =>
      match strIndex upper comp with
      | some i =>
        if 0 < i ∧ input.getD (i - 1) (Char.ofNat 0) ≠ ' ' then
          findComparator input rest
        else some (i, comp)
      | none => findComparator input rest

/-- `parseComparison` (parser.go). -/
def parseComparison (fuel : Nat) (input0 : Str) : Option Cond :=
  let input := strTrimSpace input0
  match findComparator input comparators with
  | none => none
  | some (idx, comp) =>
    let fld := strTrimSpace (input.take idx)
    let valueStart :=
      idx + comp.length + (if input.getD idx (Char.ofNat 0) = ' ' then 1 else 0)
    let valueStr := strTrimSpace (input.drop valueStart)
    (parseValueGo fuel valueStr).map (fun v => .field fld comp v)

/-- `parseCondition` (parser.go): OR split, AND split, NOT, parentheses,
field comparison.  Fuel-structural; each recursive call strictly shrinks the
input, so `input.length + 10` fuel always suffices. -/
def parseCondition : Nat → Str → Option Cond
  | 0, _ => none
  | fuel + 1, input0 =>
    let input := strTrimSpace input0
    let orParts := splitAtKeyword input " OR ".data
    if 1 < orParts.length then
      (orParts.mapM (parseCondition fuel)).map .or
    else
      let andParts := splitAtKeyword input " AND ".data
      if 1 < andParts.length then
        (andParts.mapM (parseCondition fuel)).map .and
      else
        let upper := strToUpper input
        if strHasPrefix upper "NOT ".data then
          (parseCondition fuel (input.drop 4)).map .not
        else if strHasPrefix input "(".data ∧ strHasSuffix input ")".data then
          parseCondition fuel ((input.drop 1).dropLast)
        else parseComparison fuel input

/-- `Parser.parseLine` (parser.go): DEFAULT rules, then the
action/scope/`IF` structure; `none` is a parse error. -/
def parseLine (line0 : Str) : Option Rule :=
  let line := strTrimSpace line0
  let upper := strToUpper line
  if strHasPrefix upper "DEFAULT:".data ∨ strHasPrefix upper "DEFAULT :".data then
    match splitFirst line ':' with
    | none => none
    | some (_, after) =>
      let behavior := strToUpper (strTrimSpace after)
      if behavior = "ALLOW".data then
        some { isDefault := true, defaultBehavior := .allow }
      else if behavior = "DENY".data then
        some { isDefault := true, defaultBehavior := .deny }
      else none
  else
    let act? : Option (RAction × Str) :=
      if strHasPrefix upper "ALLOW".data then some (.allow, line.drop 5)
      else if strHasPrefix upper "DENY".data then some (.deny, line.drop 4)
      else none
    match act? with
    | none => none
    | some (action, rem0) =>
      let remaining := strTrimSpace rem0
      let upperRemaining := strToUpper remaining
      let scopeRem : RScope × Str :=
        if strHasPrefix upperRemaining "EXPLORATION".data then
          (.exploration, strTrimSpace (remaining.drop 11))
        else if strHasPrefix upperRemaining "PROCESSING".data then
          (.processing, strTrimSpace (remaining.drop 10))
        else (.all, remaining)
      let scope := scopeRem.1
      let remaining := scopeRem.2
      let upperRemaining := strToUpper remaining
      if strHasPrefix upperRemaining "IF ".data then
        match parseCondition (remaining.length + 10)
            (strTrimSpace (remaining.drop 3)) with
        | none => none
        | some cond => some { action := action, scope := scope, condition := cond }
      else some { action := action, scope := scope, condition := .alwaysTrue }

/-- `Parser.Parse` (parser.go): split on newlines, skip blank and `#`/`//`
comment lines, parse each remaining line in order.  Failed lines go to the
error list and are skipped; only the rule list is modelled. -/
def parseRules (input : Str) : List Rule :=
  (input.splitOn '\n').foldl
    (fun acc line =>
      let l := strTrimSpace line
      if l.isEmpty ∨ strHasPrefix l "#".data ∨ strHasPrefix l "//".data then acc
      else
        match parseLine l with
        | none => acc
        | some r => acc ++ [r])
    []

/-! ## Graph store (`src/internal/graph/opengraph.go`, disk-backed)

`Node.Properties` carries no information any claim reads, so it is omitted;
the node `ID` is the deduplication key and `Kinds` identifies node types.
The NDJSON spill files are the `nodeLines`/`edgeLines` sequences, in append
order — exactly the order `ExportToFileWithProgress` streams them. -/

/-- `Node` (part_007), without the property bag. -/
structure Node where
  id : Str
  kinds : List Str := []
deriving DecidableEq, Repr

/-- `Edge` with its two endpoints (part_005). -/
structure Edge where
  startVal : Str
  startMatchBy : Str := []
  endVal : Str
  endMatchBy : Str := []
  kind : Str
deriving DecidableEq, Repr

/-- `NewEdge`. -/
def NewEdge (startID endID kind : Str) : Edge :=
  { startVal := startID, endVal := endID, kind := kind }

/-- `OpenGraph` state: the in-memory id set, the two spill files, and the
edge counter. -/
structure GraphStore where
  nodeIDs : List Str := []
  nodeLines : List Node := []
  edgeLines : List Edge := []
  edgeCount : Nat := 0
deriving DecidableEq, Repr

/-- `AddNode`: silently return when the id was seen; otherwise record the id
and append the node to the spill file.  (`AddNodeWithoutValidation` delegates
to `AddNode` in this implementation.) -/
def addNode (g : GraphStore) (n : Node) : GraphStore :=
  if n.id ∈ g.nodeIDs then g
  else { g with nodeIDs := g.nodeIDs ++ [n.id], nodeLines := g.nodeLines ++ [n] }

/-- `AddEdge`: append and count, no deduplication. -/
def addEdge (g : GraphStore) (e : Edge) : GraphStore :=
  { g with edgeLines := g.edgeLines ++ [e], edgeCount := g.edgeCount + 1 }

/-- One mutator call on the store. -/
inductive GraphOp where
  | node (n : Node)
  | edge (e : Edge)
deriving Repr

/-- Apply one mutator. -/
def applyOp (g : GraphStore) : GraphOp → GraphStore
  | .node n => addNode g n
  | .edge e => addEdge g e

/-- A store built by a sequence of mutators from the fresh store. -/
def applyOps (ops : List GraphOp) : GraphStore := ops.foldl applyOp {}

/-- Invariant of every reachable store: the id set is exactly the ids of the
spilled nodes, without duplicates. -/
theorem applyOps_inv (ops : List GraphOp) :
    (applyOps ops).nodeIDs = (applyOps ops).nodeLines.map (·.id)
    ∧ (applyOps ops).nodeIDs.Nodup := by
  suffices h : ∀ (g : GraphStore),
      g.nodeIDs = g.nodeLines.map (·.id) → g.nodeIDs.Nodup →
      (ops.foldl applyOp g).nodeIDs = (ops.foldl applyOp g).nodeLines.map (·.id)
      ∧ (ops.foldl applyOp g).nodeIDs.Nodup by
    exact h {} rfl List.nodup_nil
  induction ops with
  | nil => exact fun g h1 h2 => ⟨h1, h2⟩
  | cons op rest ih =>
    intro g h1 h2
    refine ih (applyOp g op) ?_ ?_
    · cases op with
      | node n =>
        simp only [applyOp, addNode]
        by_cases hmem : n.id ∈ g.nodeIDs
        · rw [if_pos hmem]
          exact h1
        · rw [if_neg hmem]
          simp [h1]
      | edge e => simpa [applyOp, addEdge] using h1
    · cases op with
      | node n =>
        simp only [applyOp, addNode]
        by_cases hmem : n.id ∈ g.nodeIDs
        · rw [if_pos hmem]
          exact h2
        · rw [if_neg hmem]
          simp [List.nodup_append, h2, hmem]
      | edge e => simpa [applyOp, addEdge] using h2

/-! ## Export entry naming (`ExportToFileWithProgress`, opengraph.go)

Only the output-shaping skeleton is modelled: which file is created, whether
a zip entry is opened and under which name.  The streamed JSON body is a
single opaque `streamDoc` step (its contents are the store sequences above
and are not read by any claim about export naming). -/

/-- The observable steps of `ExportToFileWithProgress`. -/
inductive ExportAction where
  | createFile (name : Str)
  | zipEntry (name : Str)
  | streamDoc
  | closeZip
  | flush
deriving DecidableEq, Repr

/-- `filepath.Base` (Go, `/` separator): empty path gives `.`, trailing
separators are stripped, an all-separator path gives `/`, otherwise the last
element. -/
def filepathBase (path : Str) : Str :=
  if path.isEmpty then ".".data
  else
    let p := (path.reverse.dropWhile (· = '/')).reverse
    if p.isEmpty then "/".data
    else (p.reverse.takeWhile (· ≠ '/')).reverse

/-- The action trace of `ExportToFileWithProgress`: the `.zip` test lowercases
the filename, but `strings.TrimSuffix` strips the extension case-sensitively,
and `.json` is appended when the result does not (case-sensitively) end in
it. -/
def exportToFileActions (filename : Str) : List ExportAction :=
  if strHasSuffix (strToLower filename) ".zip".data then
    let baseName := filepathBase filename
    let jsonName0 := strTrimSuffix baseName ".zip".data
    let jsonName :=
      if strHasSuffix jsonName0 ".json".data then jsonName0
      else jsonName0 ++ ".json".data
    [.createFile filename, .zipEntry jsonName, .streamDoc, .closeZip, .flush]
  else
    [.createFile filename, .streamDoc, .flush]

/-- The archive entries created by an export. -/
def exportEntryNames (filename : Str) : List Str :=
  (exportToFileActions filename).filterMap
    (fun a => match a with | .zipEntry n => some n | _ => none)

/-! ## Graph-building context (`OpenGraphContext.AddPathToGraph`, part_006)

The context state carries what persists between `AddPathToGraph` calls: the
two once-only flags and the committed-directory id set.  The per-call inputs
(the path stack and the optional current element, each with its rights) are
call arguments — the collector sets them via `PushPath`/`SetElement` before
each flush.  Emissions are traced as edges tagged with the source line that
produced them; emitted nodes are not traced (no claim reads them). -/

/-- A rights set, `SID → edge kinds`, in iteration order. -/
abbrev Rights := List (Str × List Str)

/-- Which statement of `AddPathToGraph` produced an edge. -/
inductive EdgeOrigin where
  | hostLink
  | hasShare
  | rights
  | containsPath
  | containsElement
deriving DecidableEq, Repr

/-- Persistent context state between flushes. -/
structure OGCState where
  hostEdgeEmitted : Bool := false
  hostShareEmitted : Bool := false
  emittedPathNodes : List Str := []
  host : Option Node := none
  share : Option Node := none
  shareRights : Rights := []
deriving Repr

/-- `Contains`. -/
def containsKind : Str := "Contains".data

/-- `AddRightsToGraph`: the nested loop emits, for each `(sid, kinds)` pair
and each kind, one edge aimed at the target id, in order.  The nil/empty
early returns produce the same (empty) edge list. -/
def addRightsEdges (elementID : Str) (rights : Rights) : List (Edge × EdgeOrigin) :=
  rights.flatMap
    (fun p => p.2.map (fun k => (NewEdge p.1 elementID k, EdgeOrigin.rights)))

/-- The path-stack walk of `AddPathToGraph`: each directory not yet committed
emits its rights edges and a `Contains` edge from the current parent and
joins the committed set; the parent pointer advances to the entry in either
case. -/
def walkPath (emitted : List Str) (parentID : Str) :
    List (Node × Rights) → List Str × List (Edge × EdgeOrigin)
  | [] => (emitted, [])
  | (node, rights) :: rest =>
    if node.id ∈ emitted then walkPath emitted node.id rest
    else
      let step := addRightsEdges node.id rights ++
        [(NewEdge parentID node.id containsKind, EdgeOrigin.containsPath)]
      let tail := walkPath (emitted ++ [node.id]) node.id rest
      (tail.1, step ++ tail.2)

/-- `AddPathToGraph` (part_006): host scaffold once, share scaffold once,
then the path walk, then the unconditional element emission with a
`Contains` edge from the last parent. -/
def addPathToGraph (st : OGCState) (path : List (Node × Rights))
    (element : Option (Node × Rights)) : OGCState × List (Edge × EdgeOrigin) :=
  match st.host with
  | none => (st, [])
  | some host =>
    let hostOut : OGCState × List (Edge × EdgeOrigin) :=
      if !st.hostEdgeEmitted then
        ({ st with hostEdgeEmitted := true },
         [({ NewEdge (strToUpper host.id) host.id "HostsNetworkShare".data with
              startMatchBy := "name".data, endMatchBy := "id".data },
           EdgeOrigin.hostLink)])
      else (st, [])
    let st := hostOut.1
    match st.share with
    | none => (st, hostOut.2)
    | some share =>
      let shareOut : OGCState × List (Edge × EdgeOrigin) :=
        if !st.hostShareEmitted then
          ({ st with hostShareEmitted := true },
           addRightsEdges share.id st.shareRights ++
             [(NewEdge host.id share.id "HasNetworkShare".data, EdgeOrigin.hasShare)])
        else (st, [])
      let st := shareOut.1
      let walked := walkPath st.emittedPathNodes share.id path
      let st := { st with emittedPathNodes := walked.1 }
      let parentID := (path.foldl (fun _ e => e.1.id) share.id : Str)
      match element with
      | none => (st, hostOut.2 ++ shareOut.2 ++ walked.2)
      | some (el, elRights) =>
        (st,
         hostOut.2 ++ shareOut.2 ++ walked.2 ++
           addRightsEdges el.id elRights ++
           [(NewEdge parentID el.id containsKind, EdgeOrigin.containsElement)])

/-- One collector-side flush: the path stack and current element at the time
of the `AddPathToGraph` call. -/
structure FlushCall where
  path : List (Node × Rights) := []
  element : Option (Node × Rights) := none

/-- A sequence of flushes on one context. -/
def runFlushes (st : OGCState) : List FlushCall → OGCState × List (Edge × EdgeOrigin)
  | [] => (st, [])
  | c :: rest =>
    let step := addPathToGraph st c.path c.element
    let tail := runFlushes step.1 rest
    (tail.1, step.2 ++ tail.2)

/-- Path-walk `Contains` edges aimed at a given directory id. -/
def isPathContainsTo (d : Str) (p : Edge × EdgeOrigin) : Bool :=
  p.2 = EdgeOrigin.containsPath && p.1.endVal = d

/-- Rights emission produces no path-walk `Contains` edges. -/
theorem countP_pathContains_addRights (d elementID : Str) (r : Rights) :
    (addRightsEdges elementID r).countP (isPathContainsTo d) = 0 := by
  rw [List.countP_eq_zero]
  intro p hp
  simp only [addRightsEdges, List.mem_flatMap, List.mem_map] at hp
  obtain ⟨q, _, k, _, rfl⟩ := hp
  simp [isPathContainsTo]

/-- The walk's bookkeeping: a directory id collects one path-walk `Contains`
edge exactly when it enters the committed set. -/
theorem walkPath_count (d : Str) :
    ∀ (entries : List (Node × Rights)) (emitted : List Str) (parentID : Str),
      (walkPath emitted parentID entries).2.countP (isPathContainsTo d)
          + (if d ∈ emitted then 1 else 0)
        = (if d ∈ (walkPath emitted parentID entries).1 then 1 else 0) := by
  intro entries
  induction entries with
  | nil => intro emitted parentID; simp [walkPath]
  | cons entry rest ih =>
    intro emitted parentID
    obtain ⟨node, rights⟩ := entry
    by_cases hin : node.id ∈ emitted
    · simpa [walkPath, hin] using ih emitted node.id
    · have hstep :
          (addRightsEdges node.id rights ++
            [(NewEdge parentID node.id containsKind, EdgeOrigin.containsPath)]).countP
              (isPathContainsTo d)
            = if node.id = d then 1 else 0 := by
        rw [List.countP_append, countP_pathContains_addRights]
        by_cases hd : node.id = d <;> simp [isPathContainsTo, NewEdge, hd]
      have htail := ih (emitted ++ [node.id]) node.id
      simp only [walkPath]
      rw [if_neg hin]
      simp only [List.countP_append] at hstep ⊢
      by_cases hd : node.id = d
      · subst hd
        rw [if_pos rfl] at hstep
        have hmem : node.id ∈ emitted ++ [node.id] := by simp
        rw [if_pos hmem] at htail
        rw [if_neg hin]
        omega
      · rw [if_neg hd] at hstep
        have hmemiff : (d ∈ emitted ++ [node.id]) ↔ d ∈ emitted := by
          rw [List.mem_append]
          constructor
          · intro hq
            rcases hq with hq | hq
            · exact hq
            · exact absurd (List.mem_singleton.mp hq).symm hd
          · exact fun hq => Or.inl hq
        by_cases hde : d ∈ emitted
        · rw [if_pos (hmemiff.mpr hde)] at htail
          rw [if_pos hde]
          omega
        · rw [if_neg (fun hq => hde (hmemiff.mp hq))] at htail
          rw [if_neg hde]
          omega

/-- The same bookkeeping lifted to a whole `AddPathToGraph` call: the host,
share, rights and element emissions contribute no path-walk `Contains`
edge. -/
theorem addPathToGraph_count (st : OGCState) (path : List (Node × Rights))
    (element : Option (Node × Rights)) (d : Str) :
    (addPathToGraph st path element).2.countP (isPathContainsTo d)
        + (if d ∈ st.emittedPathNodes then 1 else 0)
      = (if d ∈ (addPathToGraph st path element).1.emittedPathNodes then 1 else 0) := by
  obtain ⟨he, hs, em, host?, share?, sr⟩ := st
  cases host? with
  | none => simp [addPathToGraph]
  | some host =>
    cases share? with
    | none =>
      cases he <;>
        simp [addPathToGraph, isPathContainsTo, List.countP_cons]
    | some share =>
      have hw := walkPath_count d path em share.id
      cases he <;> cases hs <;>
        (cases element with
         | none =>
           simp only [addPathToGraph]
           simp [isPathContainsTo, List.countP_append, List.countP_cons,
             countP_pathContains_addRights]
           omega
         | some el =>
           obtain ⟨elNode, elRights⟩ := el
           simp only [addPathToGraph]
           simp [isPathContainsTo, List.countP_append, List.countP_cons,
             countP_pathContains_addRights]
           omega)

/-- Bookkeeping across a whole run of flushes. -/
theorem runFlushes_count (d : Str) :
    ∀ (calls : List FlushCall) (st : OGCState),
      (runFlushes st calls).2.countP (isPathContainsTo d)
          + (if d ∈ st.emittedPathNodes then 1 else 0)
        = (if d ∈ (runFlushes st calls).1.emittedPathNodes then 1 else 0) := by
  intro calls
  induction calls with
  | nil => intro st; simp [runFlushes]
  | cons c rest ih =>
    intro st
    have h1 := addPathToGraph_count st c.path c.element d
    have h2 := ih (addPathToGraph st c.path c.element).1
    simp only [runFlushes, List.countP_append]
    omega

/-- Helper for the store invariant: in a duplicate-free list each value is
counted once or not at all. -/
theorem countP_eq_ite_of_nodup (l : List Str) (a : Str) (h : l.Nodup) :
    l.countP (fun i => i = a) = if a ∈ l then 1 else 0 := by
  induction l with
  | nil => simp
  | cons x rest ih =>
    rcases List.nodup_cons.mp h with ⟨hx, hrest⟩
    by_cases hxa : x = a
    · subst hxa
      simp [List.countP_cons, ih hrest, hx]
    · have hmemiff : (a ∈ x :: rest) ↔ a ∈ rest := by
        constructor
        · intro hmm
          rcases List.mem_cons.mp hmm with hq | hq
          · exact absurd hq.symm hxa
          · exact hq
        · exact fun hmm => List.mem_cons_of_mem x hmm
      simp only [List.countP_cons]
      rw [ih hrest]
      by_cases hm : a ∈ rest
      · rw [if_pos hm, if_pos (hmemiff.mpr hm)]
        simp [hxa]
      · rw [if_neg hm, if_neg (fun hmm => hm (hmemiff.mp hmm))]
        simp [hxa]

/-! ## Claim inputs -/

/-- Bytes of a self-relative security descriptor as returned by the NTFS
share-root fallback: 20-byte header (control `0x8004`, DACL offset 20),
an ACL with one ACE, and an ACCESS_ALLOWED ACE with mask `0x00000001` whose
trustee is `S-1-1-0`. -/
def c1FallbackDescriptor : List Nat :=
  [1, 0, 4, 128, 0, 0, 0, 0, 0, 0, 0, 0, 0, 0, 0, 0, 20, 0, 0, 0,
   2, 0, 28, 0, 1, 0, 0, 0,
   0, 0, 20, 0, 1, 0, 0, 0, 1, 1, 0, 0, 0, 0, 0, 1, 0, 0, 0, 0]

/-- The trustee SID used in the C2 witness. -/
def c2Sid : SIDRec :=
  { revision := 1, subAuthorityCount := 1
    identifierAuthority := [0, 0, 0, 0, 0, 1], subAuthorities := [0] }

/-- The rule text of the scenario: `DEFAULT: ALLOW`, then
`DENY EXPLORATION IF SHARE.NAME IN [...]` over the four administrative share
names, then `ALLOW EXPLORATION` (the source list literal uses single
quotes). -/
def c3RuleText : Str :=
  "DEFAULT: ALLOW\n".data ++
  "DENY EXPLORATION IF SHARE.NAME IN [".data ++
  [quoteC] ++ "c$".data ++ [quoteC] ++ ",".data ++
  [quoteC] ++ "print$".data ++ [quoteC] ++ ",".data ++
  [quoteC] ++ "admin$".data ++ [quoteC] ++ ",".data ++
  [quoteC] ++ "ipc$".data ++ [quoteC] ++ "]\n".data ++
  "ALLOW EXPLORATION".data

/-- An evaluation context whose share carries the given name. -/
def c3ShareCtx (n : Str) : EvalCtx := { share := some { name := n } }

/-- An evaluation context whose share is named `abc` (not a number). -/
def c4Ctx : EvalCtx := { share := some { name := "abc".data } }

/-- A host node for the flush runs. -/
def c7Host : Node := { id := "HOST1".data, kinds := ["NetworkShareHost".data] }

/-- A share node for the flush runs. -/
def c7Share : Node := { id := "SHARE1".data, kinds := ["NetworkShareSMB".data] }

/-- A directory node for the flush runs. -/
def c7Dir : Node := { id := "DIR:D".data, kinds := ["Directory".data] }

/-- A file node for the flush runs. -/
def c7File : Node := { id := "FILE:F".data, kinds := ["File".data] }

/-- A fresh context seeded with host and share. -/
def c7State : OGCState := { host := some c7Host, share := some c7Share }

/-- The traversal order of the recursive collector for one directory holding
one file: the directory is flushed as the current element when it is
processed, then pushed on the path stack, and the file inside it is flushed
with the directory as the path. -/
def c7Calls : List FlushCall :=
  [ { path := [], element := some (c7Dir, []) }
  , { path := [(c7Dir, [])], element := some (c7File, []) } ]

/-- A node and a store that already contains its id. -/
def c8Node : Node := { id := "N1".data }

/-- See `c8Node`. -/
def c8Store : GraphStore := { nodeIDs := ["N1".data], nodeLines := [c8Node] }

/-- The share table with its first two entries swapped: another order in
which a Go `range` over the map may deliver the entries. -/
def c9OrderSwapped : List (Str × Nat) :=
  ("CanDsDeleteChild".data, 0x00000002) :: ("CanDsCreateChild".data, 0x00000001) ::
    ShareRightsMapping.drop 2

/-- An ACL whose header declares three ACEs followed by a single 8-byte ACE
whose declared size field is 0. -/
def c10Input : List Nat := [2, 0, 16, 0, 3, 0, 0, 0, 0, 0, 0, 0, 1, 0, 0, 0]

/-- The ACE parsed from `c10Input` (size 0, mask 1, no SID). -/
def c10Ace : ACERec := { aceType := 0, aceFlags := 0, aceSize := 0, mask := 1, sid := none }

/-- The ACL parsed from `c10Input`: the zero-size ACE never advances the
offset, so it is appended `aceCount` times. -/
def c10Acl : ACLRec :=
  { aclRevision := 2, sbz1 := 0, aclSize := 16, aceCount := 3, sbz2 := 0
    aces := [c10Ace, c10Ace, c10Ace] }

/-- The ACE loop returns at most as many ACEs as it is asked for. -/
theorem parseACEsLoop_length_le (data : List Nat) :
    ∀ (n off : Nat), (parseACEsLoop data n off).length ≤ n := by
  intro n
  induction n with
  | zero => intro off; simp [parseACEsLoop]
  | succ n ih =>
    intro off
    simp only [parseACEsLoop]
    by_cases h : off < data.length
    · rw [if_pos h]
      cases hp : parseACE (data.drop off) with
      | none => simp
      | some pr =>
        simpa using ih (off + pr.2)
    · rw [if_neg h]
      simp

/-- Permuting the iteration order never changes how many kinds a mask
yields. -/
theorem rightsForMaskOrd_perm_length {o t : List (Str × Nat)} (h : o.Perm t)
    (mask : Nat) :
    (rightsForMaskOrd o mask).length = (rightsForMaskOrd t mask).length :=
  ((h.filter _).map _).length_eq

/-! ## The claims -/

/-- C1: with the share-level (RPC) descriptor unavailable, the share-root
NTFS fallback descriptor is nevertheless interpreted through the share-level
mask table: its allowed ACE with mask `0x00000001` yields the share-level
kind `CanDsCreateChild`, although the NTFS-level table maps that mask to no
kind at all.  (`CollectShareRights` computes `usedFallback` and then
discards it; `GetShareRightsForMask` is applied on both paths.)  This
contradicts the claim, which requires fallback descriptors to go through the
NTFS-level table and produce `CanNTFS*` kinds. -/
theorem C1_fallback_descriptor_share_table :
    collectShareRights none (some c1FallbackDescriptor)
      = [("S-1-1-0".data, ["CanDsCreateChild".data])]
    ∧ GetNTFSRightsForMask 0x00000001 = []
    ∧ GetShareRightsForMask 0x00000001 = ["CanDsCreateChild".data] := by
  decide

/-- C2: in `CollectShareRights`, an ACCESS_ALLOWED ACE (type 0) with a
non-nil trustee SID — whose text is automatically non-empty — contributes
exactly `popcount(mask AND K)` edge kinds, `K` the union of the 17
share-level flags, under every iteration order of the mask table; ACEs of
any other type, and SID-less ACEs, contribute none (in particular mask 0
contributes zero kinds).  The NTFS-level lookup likewise returns
`popcount(mask AND K')` kinds for the union `K'` of its 11 flags. -/
theorem C2_ace_contribution_popcount :
    (∀ (order : List (Str × Nat)), order.Perm ShareRightsMapping →
      ∀ ace : ACERec,
        (shareAceKinds order ace).length
          = if ace.aceType = 0 ∧ ace.sid.isSome
            then popcount (ace.mask &&& shareKnownFlags) else 0)
    ∧ (∀ (order : List (Str × Nat)), order.Perm NTFSRightsMapping →
      ∀ mask : Nat,
        (rightsForMaskOrd order mask).length
          = popcount (mask &&& ntfsKnownFlags)) := by
  constructor
  · intro order hperm ace
    have hlen : (rightsForMaskOrd order ace.mask).length
        = popcount (ace.mask &&& shareKnownFlags) := by
      rw [rightsForMaskOrd_perm_length hperm]
      exact shareRights_length_eq_popcount ace.mask
    have hkey : (if (rightsForMaskOrd order ace.mask).length > 0
        then rightsForMaskOrd order ace.mask else []).length
        = popcount (ace.mask &&& shareKnownFlags) := by
      by_cases hpos : (rightsForMaskOrd order ace.mask).length > 0
      · rw [if_pos hpos]
        exact hlen
      · rw [if_neg hpos]
        simp only [List.length_nil]
        omega
    unfold shareAceKinds
    by_cases ht : ace.aceType = 0
    · cases hsid : ace.sid with
      | none => simp [ACERec.isAccessAllowed, ht, hsid]
      | some s =>
        simp only [ACERec.isAccessAllowed, ht, hsid]
        rw [if_neg (by simp)]
        rw [if_neg (sidToString_ne_nil s)]
        simpa using hkey
    · simp [ACERec.isAccessAllowed, ht]
  · intro order hperm mask
    rw [rightsForMaskOrd_perm_length hperm]
    exact ntfsRights_length_eq_popcount mask

/-- Witness for C2 at concrete inputs: the generic-all-equivalent mask
`0x1F01FF` yields 13 share-level kinds (bit 20 is not a share-level flag),
and mask `0x00110000` yields the 2 NTFS-level kinds for SYNCHRONIZE and
DELETE. -/
theorem C2_ace_contribution_popcount_witness :
    (shareAceKinds ShareRightsMapping
        { aceType := 0, aceFlags := 0, aceSize := 20, mask := 0x1F01FF
          sid := some c2Sid }).length = 13
    ∧ (rightsForMaskOrd NTFSRightsMapping 0x00110000).length = 2 := by
  constructor
  · rw [C2_ace_contribution_popcount.1 ShareRightsMapping (List.Perm.refl _)]
    decide
  · rw [C2_ace_contribution_popcount.2 NTFSRightsMapping (List.Perm.refl _)]
    decide

/-- C3: parsing the default rule text and evaluating scope EXPLORATION
denies the share named `ADMIN$` (the `IN` membership matches `admin$`
case-insensitively) and allows the share named `DATA` (the trailing
unconditional `ALLOW EXPLORATION` decides).  The result holds for every
regexp oracle since no rule uses `MATCHES`; fuel 100 far exceeds the
condition nesting depth. -/
theorem C3_default_rules_scenario :
    ∀ oracle : Str → Str → Bool,
      evaluateRules oracle 100 (parseRules c3RuleText) .exploration
          (c3ShareCtx "ADMIN$".data) = false
      ∧ evaluateRules oracle 100 (parseRules c3RuleText) .exploration
          (c3ShareCtx "DATA".data) = true :=
  fun _ => ⟨rfl, rfl⟩

/-- C4: an ordered comparison whose field value is the non-numeric string
`abc` evaluates to true (0 < 5), not false: `toNumber`'s string case reads
zero bytes through `strings.NewReader(val).Read([]byte{})`, which fails only
for the empty string, so every non-empty string coerces to 0.  This
contradicts the claim (and the comment in the source), under which a
non-numeric string fails to coerce and makes the predicate false. -/
theorem C4_nonnumeric_ordered_compare :
    ∀ oracle : Str → Str → Bool,
      fieldCondEval oracle c4Ctx "SHARE.NAME".data "<".data (.num 5) = true
      ∧ goToNumber (.str "abc".data) = some 0
      ∧ goToNumber (.str []) = none :=
  fun _ => ⟨rfl, rfl, rfl⟩

/-- C5 counterexample: `out.ZIP` ends with `.zip` case-insensitively, so the
claim requires the single entry to be named `out.json` (base name with the
`.zip` suffix stripped, `.json` appended); the code's case-sensitive
`TrimSuffix` does not strip `.ZIP` and produces `out.ZIP.json`. -/
theorem C5_counterexample :
    exportEntryNames "out.ZIP".data = ["out.ZIP.json".data]
    ∧ strHasSuffix (strToLower "out.ZIP".data) ".zip".data = true
    ∧ (if strHasSuffix ((filepathBase "out.ZIP".data).take
          ((filepathBase "out.ZIP".data).length - 4)) ".json".data
       then (filepathBase "out.ZIP".data).take
          ((filepathBase "out.ZIP".data).length - 4)
       else (filepathBase "out.ZIP".data).take
          ((filepathBase "out.ZIP".data).length - 4) ++ ".json".data)
        = "out.json".data
    ∧ "out.ZIP.json".data ≠ "out.json".data := by
  decide

/-- C5 amended: a filename ending in `.zip` case-insensitively produces a
zip archive with exactly one entry, whose name is the base name with an
exact lowercase `.zip` suffix stripped case-sensitively (left intact
otherwise) and `.json` appended when the result does not already end in
`.json`; any other filename produces the raw document. -/
theorem C5_zip_entry_naming :
    ∀ filename : Str,
      (strHasSuffix (strToLower filename) ".zip".data = true →
        exportToFileActions filename
          = [.createFile filename,
             .zipEntry
               (if strHasSuffix
                   (if strHasSuffix (filepathBase filename) ".zip".data
                    then (filepathBase filename).take
                      ((filepathBase filename).length - (".zip".data).length)
                    else filepathBase filename) ".json".data
                then (if strHasSuffix (filepathBase filename) ".zip".data
                      then (filepathBase filename).take
                        ((filepathBase filename).length - (".zip".data).length)
                      else filepathBase filename)
                else (if strHasSuffix (filepathBase filename) ".zip".data
                      then (filepathBase filename).take
                        ((filepathBase filename).length - (".zip".data).length)
                      else filepathBase filename) ++ ".json".data),
             .streamDoc, .closeZip, .flush])
      ∧ (strHasSuffix (strToLower filename) ".zip".data = false →
        exportToFileActions filename
          = [.createFile filename, .streamDoc, .flush]) := by
  intro filename
  constructor
  · intro h
    simp [exportToFileActions, strTrimSuffix, h]
  · intro h
    simp [exportToFileActions, h]

/-- Witness for C5 at concrete filenames: `a.zip` yields one entry `a.json`;
`a.txt` yields the raw document. -/
theorem C5_zip_entry_naming_witness :
    exportToFileActions "a.zip".data
      = [.createFile "a.zip".data, .zipEntry "a.json".data, .streamDoc,
         .closeZip, .flush]
    ∧ exportToFileActions "a.txt".data
      = [.createFile "a.txt".data, .streamDoc, .flush] := by
  constructor
  · rw [(C5_zip_entry_naming "a.zip".data).1 (by decide)]
    decide
  · exact (C5_zip_entry_naming "a.txt".data).2 (by decide)

/-- C6: SID parsing succeeds exactly when the input holds the 8 header bytes
and `8 + 4·n` bytes in total, `n` the sub-authority count read from byte 1;
shorter inputs give an error and no SID.  A successful parse consumes the
revision from byte 0, `n` from byte 1, the 6 identifier-authority bytes
(rendered big-endian by `String()`), and `n` little-endian 32-bit
sub-authorities from offset 8. -/
theorem C6_parseSID_length_exact :
    ∀ data : List Nat,
      ((parseSID data).isSome ↔
        8 ≤ data.length ∧ 8 + 4 * byteAt data 1 ≤ data.length)
      ∧ ∀ sid, parseSID data = some sid →
          sid.revision = byteAt data 0
          ∧ sid.subAuthorityCount = byteAt data 1
          ∧ sid.identifierAuthority = (data.drop 2).take 6
          ∧ sid.subAuthorities
              = (List.range (byteAt data 1)).map
                  (fun i => readLE32 data (8 + i * 4)) := by
  intro data
  constructor
  · unfold parseSID
    by_cases h8 : data.length < 8
    · rw [if_pos h8]
      simp
      omega
    · rw [if_neg h8]
      by_cases hn : data.length < 8 + byteAt data 1 * 4
      · rw [if_pos hn]
        simp
        omega
      · rw [if_neg hn]
        simp
        omega
  · intro sid hs
    unfold parseSID at hs
    by_cases h8 : data.length < 8
    · rw [if_pos h8] at hs
      cases hs
    · rw [if_neg h8] at hs
      by_cases hn : data.length < 8 + byteAt data 1 * 4
      · rw [if_pos hn] at hs
        cases hs
      · rw [if_neg hn] at hs
        cases hs
        exact ⟨rfl, rfl, rfl, rfl⟩

/-- Witness for C6 at a 12-byte SID `S-1-5-9`. -/
theorem C6_parseSID_length_exact_witness :
    (parseSID [1, 1, 0, 0, 0, 0, 0, 5, 9, 0, 0, 0]).isSome
    ∧ ({ revision := 1, subAuthorityCount := 1
         identifierAuthority := [0, 0, 0, 0, 0, 5]
         subAuthorities := [9] } : SIDRec).revision
        = byteAt [1, 1, 0, 0, 0, 0, 0, 5, 9, 0, 0, 0] 0 := by
  refine ⟨(C6_parseSID_length_exact [1, 1, 0, 0, 0, 0, 0, 5, 9, 0, 0, 0]).1.mpr
    (by decide), ?_⟩
  exact ((C6_parseSID_length_exact [1, 1, 0, 0, 0, 0, 0, 5, 9, 0, 0, 0]).2 _
    (by decide)).1

/-- C7 counterexample: a directory that is first flushed as the current
element and afterwards sits on the path stack when its child file is flushed
receives the same `Contains` edge from its parent twice — the element
emission does not consult the committed-directory set, so "at most one
`Contains` edge from its parent" fails. -/
theorem C7_counterexample :
    (runFlushes c7State c7Calls).2.countP
        (fun p => p.1 = NewEdge c7Share.id c7Dir.id containsKind) = 2 := by
  decide

/-- C7 amended: across every sequence of `AddPathToGraph` calls on one
context, the path-stack walk emits at most one `Contains` edge per directory
id (none when the id is already committed), because the walk consults and
extends `emittedPathNodes`; the current element's `Contains` edge, however,
is emitted unconditionally on every flush, so a directory flushed both as
element and as a path ancestor can receive more than one `Contains` edge in
total. -/
theorem C7_path_contains_once :
    ∀ (st : OGCState) (calls : List FlushCall) (d : Str),
      (runFlushes st calls).2.countP (isPathContainsTo d)
        ≤ if d ∈ st.emittedPathNodes then 0 else 1 := by
  intro st calls d
  have h := runFlushes_count d calls st
  by_cases hm : d ∈ st.emittedPathNodes
  · rw [if_pos hm] at h ⊢
    by_cases hf : d ∈ (runFlushes st calls).1.emittedPathNodes
    · rw [if_pos hf] at h
      omega
    · rw [if_neg hf] at h
      omega
  · rw [if_neg hm] at h ⊢
    by_cases hf : d ∈ (runFlushes st calls).1.emittedPathNodes
    · rw [if_pos hf] at h
      omega
    · rw [if_neg hf] at h
      omega

/-- C8: adding a node whose id the store already holds leaves the store
unchanged, so adding the same node twice equals adding it once; every
`AddEdge` call appends, so two identical calls put two edges (and two
counter increments) in the output; and in every store reachable by add
operations the exported node sequence holds exactly one node per recorded
id and none for any other id. -/
theorem C8_graph_store_dedup_append :
    (∀ (g : GraphStore) (n : Node), n.id ∈ g.nodeIDs → addNode g n = g)
    ∧ (∀ (g : GraphStore) (n : Node), addNode (addNode g n) n = addNode g n)
    ∧ (∀ (g : GraphStore) (e : Edge),
        (addEdge (addEdge g e) e).edgeLines = g.edgeLines ++ [e, e]
        ∧ (addEdge (addEdge g e) e).edgeCount = g.edgeCount + 2)
    ∧ (∀ (ops : List GraphOp) (nid : Str),
        (applyOps ops).nodeLines.countP (fun nd => nd.id = nid)
          = if nid ∈ (applyOps ops).nodeIDs then 1 else 0) := by
  refine ⟨fun g n h => by simp [addNode, h], ?_, ?_, ?_⟩
  · intro g n
    by_cases h : n.id ∈ g.nodeIDs <;> simp [addNode, h]
  · intro g e
    constructor <;> simp [addEdge]
  · intro ops nid
    obtain ⟨h1, h2⟩ := applyOps_inv ops
    have h3 : (applyOps ops).nodeLines.countP (fun nd => nd.id = nid)
        = ((applyOps ops).nodeLines.map (·.id)).countP (fun i => i = nid) := by
      rw [List.countP_map]
      exact List.countP_congr (fun a _ => Iff.rfl)
    rw [h3, ← h1, countP_eq_ite_of_nodup _ _ h2]

/-- Witness for C8: re-adding the node whose id the store holds leaves it
unchanged. -/
theorem C8_graph_store_dedup_append_witness :
    addNode c8Store c8Node = c8Store :=
  C8_graph_store_dedup_append.1 c8Store c8Node (by decide)

/-- C9 counterexample: the swapped table is an admissible iteration order of
the same Go map (a permutation of its entries), yet for mask 3 it yields the
two kinds in the opposite order.  Go randomizes map iteration order per
`range` statement, so two in-process calls are two independent admissible
orders, and equality of the returned sequences is not guaranteed. -/
theorem C9_counterexample :
    c9OrderSwapped.Perm ShareRightsMapping
    ∧ rightsForMaskOrd c9OrderSwapped 3
        ≠ rightsForMaskOrd ShareRightsMapping 3 := by
  constructor
  · exact List.Perm.swap _ _ _
  · decide

/-- C9 amended: the returned edge kinds depend only on the mask as a set —
any two admissible iteration orders of the same table yield permutations of
each other — but their order is not stable across calls. -/
theorem C9_rights_set_deterministic :
    ∀ (t o₁ o₂ : List (Str × Nat)), o₁.Perm t → o₂.Perm t →
      ∀ mask : Nat,
        (rightsForMaskOrd o₁ mask).Perm (rightsForMaskOrd o₂ mask) := by
  intro t o₁ o₂ h₁ h₂ mask
  exact ((h₁.trans h₂.symm).filter _).map _

/-- Witness for C9 at the two concrete orders and mask 3. -/
theorem C9_rights_set_deterministic_witness :
    (rightsForMaskOrd c9OrderSwapped 3).Perm
      (rightsForMaskOrd ShareRightsMapping 3) :=
  C9_rights_set_deterministic ShareRightsMapping c9OrderSwapped
    ShareRightsMapping (List.Perm.swap _ _ _) (List.Perm.refl _) 3

/-- C10: for every input of at least 8 bytes, ACL parsing returns a result
(never an error), terminates, and yields at most `ace_count` ACEs (the
16-bit count at bytes 4–5); and on the concrete input whose single ACE
declares size 0, the offset never advances and that ACE is appended
`ace_count` times. -/
theorem C10_parseACL_total_bounded :
    (∀ data : List Nat, 8 ≤ data.length →
      (parseACL data).isSome
      ∧ ∀ acl, parseACL data = some acl → acl.aces.length ≤ readLE16 data 4)
    ∧ (parseACL c10Input).map (·.aces) = some [c10Ace, c10Ace, c10Ace] := by
  constructor
  · intro data h
    constructor
    · unfold parseACL
      rw [if_neg (by omega)]
      rfl
    · intro acl hacl
      unfold parseACL at hacl
      rw [if_neg (by omega)] at hacl
      cases hacl
      exact parseACEsLoop_length_le data _ 8
  · decide

/-- Witness for C10 at the zero-size-ACE input (16 bytes): parsing succeeds
and the three parsed ACEs respect the declared count. -/
theorem C10_parseACL_total_bounded_witness :
    (parseACL c10Input).isSome
    ∧ c10Acl.aces.length ≤ readLE16 c10Input 4 :=
  ⟨(C10_parseACL_total_bounded.1 c10Input (by decide)).1,
   (C10_parseACL_total_bounded.1 c10Input (by decide)).2 c10Acl (by decide)⟩

end ShareHound
